import Mathlib

/-!
Verification of the Academic Stress EWS feature-encoding and validation
pipeline, shallowly embedded from `src/desktop/app.py` and
`src/streamlit/app.py`.

Python values that may be either a training-time string code or an
integer code are embedded as `EncVal`.  Python dictionaries keyed by
feature name are embedded as association lists with Python's dict
semantics (`pyInsert` for assignment, `lookupA` for lookup).  Python
`float(x)` string parsing is embedded exactly, the finite value kept as
a scaled integer `Dec10` (binary-float rounding and overflow-to-infinity
are idealised to exact decimal arithmetic, and PEP 515 underscore
separators are not modelled; no claim here depends on either), with
`inf`/`nan` results kept symbolic so that `int(...)` raising on them is
modelled faithfully.
-/

deriving instance DecidableEq for Except

/-- An encoded feature value as fed to the model: the training-time
representation is either a string (for example "GP") or an integer
(for example schoolsup "yes" ↦ 1), and must be reproduced exactly. -/
inductive EncVal where
  | s (v : String)
  | i (v : ℤ)
deriving DecidableEq, Repr

/-- First-match association-list lookup: Python `dict.get` on a dict
built from a duplicate-free key list. -/
def lookupA {α : Type} : List (String × α) → String → Option α
  | [], _ => none
  | (k2, v) :: t, k => if k2 = k then some v else lookupA t k

/-- Python dict assignment `d[k] = v`: replace in place when the key is
present, append otherwise (insertion order preserved). -/
def pyInsert {α : Type} (d : List (String × α)) (k : String) (v : α) :
    List (String × α) :=
  if d.any (fun p => p.1 = k) then
    d.map (fun p => if p.1 = k then (k, v) else p)
  else d ++ [(k, v)]

/-- `REQUIRED_FEATURES` from `src/desktop/app.py` lines 17-23 (the
streamlit app's `REQUIRED`, lines 65-70, is the same list). -/
def REQUIRED_FEATURES : List String :=
  ["school", "sex", "age", "address", "famsize", "Pstatus", "Medu", "Fedu",
   "Mjob", "Fjob", "reason", "guardian", "traveltime", "studytime", "failures",
   "schoolsup", "famsup", "paid", "activities", "nursery", "higher", "internet",
   "romantic", "famrel", "freetime", "goout", "Dalc", "Walc", "health", "absences",
   "G1", "G2"]

/-- What reading the feature-order sidecar file can yield: the file is
absent, present but `json.load` (or the subsequent membership test)
raises, or parsed to a list of names. -/
inductive SidecarFile where
  | missing
  | unparseable
  | parsed (names : List String)
deriving DecidableEq

/-- `FEATURE_ORDER` startup logic of `src/desktop/app.py` lines 30-39:
use the parsed sidecar list when it contains every required feature,
otherwise fall back to `REQUIRED_FEATURES`; any exception during
load or the check also falls back. -/
def FEATURE_ORDER : SidecarFile → List String
  | .missing => REQUIRED_FEATURES
  | .unparseable => REQUIRED_FEATURES
  | .parsed l =>
      if REQUIRED_FEATURES.all (fun f => l.contains f) then l
      else REQUIRED_FEATURES

/-- `load_artifacts` of `src/streamlit/app.py` lines 24-33, feature-order
part: a missing sidecar raises `FileNotFoundError`, a parse failure
propagates the `json.load` exception, and a parsed list is returned
unchecked. -/
def load_artifacts : SidecarFile → Except String (List String)
  | .missing => .error "feature_names.json not found"
  | .unparseable => .error "json parse error"
  | .parsed l => .ok l

/-- Streamlit startup, lines 57-72: a `load_artifacts` exception is
surfaced via `st.error` and `st.stop` (modelled as `.error`); on success
the loaded order is kept even when required features are missing, with
only a warning flag (`st.warning`) raised. -/
def streamlitStartup (f : SidecarFile) : Except String (List String × Bool) :=
  match load_artifacts f with
  | .error e => .error e
  | .ok l => .ok (l, !(REQUIRED_FEATURES.all (fun r => l.contains r)))

/-- `FIELD_INFO` from `src/desktop/app.py` lines 44-77: per feature its
display label and, for dropdown fields, the display-string → encoded
value choices map (`None` in Python, `none` here, marks numeric
spinbox fields). -/
def FIELD_INFO : List (String × String × Option (List (String × EncVal))) :=
  [("school", "School", some [("GP", .s "GP"), ("MS", .s "MS")]),
   ("sex", "Sex", some [("F", .s "F"), ("M", .s "M")]),
   ("age", "Age", none),
   ("address", "Address", some [("U (urban)", .s "U"), ("R (rural)", .s "R")]),
   ("famsize", "Family Size", some [("GT3 (>=3)", .s "GT3"), ("LE3 (<3)", .s "LE3")]),
   ("Pstatus", "Parent Cohabitation", some [("T (together)", .s "T"), ("A (apart)", .s "A")]),
   ("Medu", "Mother's Education", some [("0 - None", .i 0), ("1 - Primary", .i 1), ("2 - 5th–9th", .i 2), ("3 - Secondary", .i 3), ("4 - Higher", .i 4)]),
   ("Fedu", "Father's Education", some [("0 - None", .i 0), ("1 - Primary", .i 1), ("2 - 5th–9th", .i 2), ("3 - Secondary", .i 3), ("4 - Higher", .i 4)]),
   ("Mjob", "Mother's Job", some [("teacher", .s "teacher"), ("health", .s "health"), ("services", .s "services"), ("at_home", .s "at_home"), ("other", .s "other")]),
   ("Fjob", "Father's Job", some [("teacher", .s "teacher"), ("health", .s "health"), ("services", .s "services"), ("at_home", .s "at_home"), ("other", .s "other")]),
   ("reason", "Reason for School Choice", some [("home", .s "home"), ("reputation", .s "reputation"), ("course", .s "course"), ("other", .s "other")]),
   ("guardian", "Guardian", some [("mother", .s "mother"), ("father", .s "father"), ("other", .s "other")]),
   ("traveltime", "Travel Time", some [("1 - <15 min", .i 1), ("2 - 15–30 min", .i 2), ("3 - 30–60 min", .i 3), ("4 - >60 min", .i 4)]),
   ("studytime", "Weekly Study Time", some [("1 - <2 hrs", .i 1), ("2 - 2–5 hrs", .i 2), ("3 - 5–10 hrs", .i 3), ("4 - >10 hrs", .i 4)]),
   ("failures", "Past Failures", some [("0", .i 0), ("1", .i 1), ("2", .i 2), ("3", .i 3)]),
   ("schoolsup", "School Support", some [("yes", .i 1), ("no", .i 0)]),
   ("famsup", "Family Support", some [("yes", .i 1), ("no", .i 0)]),
   ("paid", "Paid Classes", some [("yes", .i 1), ("no", .i 0)]),
   ("activities", "Activities", some [("yes", .i 1), ("no", .i 0)]),
   ("nursery", "Nursery", some [("yes", .i 1), ("no", .i 0)]),
   ("higher", "Wants Higher Edu", some [("yes", .i 1), ("no", .i 0)]),
   ("internet", "Internet", some [("yes", .i 1), ("no", .i 0)]),
   ("romantic", "Romantic", some [("yes", .i 1), ("no", .i 0)]),
   ("famrel", "Family Relationship", some [("1", .i 1), ("2", .i 2), ("3", .i 3), ("4", .i 4), ("5", .i 5)]),
   ("freetime", "Free Time", some [("1", .i 1), ("2", .i 2), ("3", .i 3), ("4", .i 4), ("5", .i 5)]),
   ("goout", "Going Out", some [("1", .i 1), ("2", .i 2), ("3", .i 3), ("4", .i 4), ("5", .i 5)]),
   ("Dalc", "Workday Alcohol", some [("1", .i 1), ("2", .i 2), ("3", .i 3), ("4", .i 4), ("5", .i 5)]),
   ("Walc", "Weekend Alcohol", some [("1", .i 1), ("2", .i 2), ("3", .i 3), ("4", .i 4), ("5", .i 5)]),
   ("health", "Health", some [("1", .i 1), ("2", .i 2), ("3", .i 3), ("4", .i 4), ("5", .i 5)]),
   ("absences", "Absences", none),
   ("G1", "G1 (0–20)", none),
   ("G2", "G2 (0–20)", none)]

/-- `FIELD_INFO_MAP.get(feat, (feat, None))` of line 79 with the
default of line 153. -/
def FIELD_INFO_MAP (feat : String) : String × Option (List (String × EncVal)) :=
  match lookupA FIELD_INFO feat with
  | some lv => lv
  | none => (feat, none)

/-- The widget built for a feature: the `("dropdown", var, options_map)`
or `("spin", var, (minval, maxval))` entry of `widget_vars`. -/
inductive Widget where
  | dropdown (options : List (String × EncVal))
  | spin (lo hi : ℤ)
deriving DecidableEq

/-- The form-building loop of `src/desktop/app.py` lines 152-164: a
feature with a choices map gets a dropdown; otherwise a spinbox with the
bounds picked per feature name (unknown features get 0-100). -/
def widgetFor (feat : String) : Widget :=
  match (FIELD_INFO_MAP feat).2 with
  | some opts => .dropdown opts
  | none =>
      if feat = "age" then .spin 10 30
      else if feat = "absences" then .spin 0 93
      else if feat = "G1" ∨ feat = "G2" then .spin 0 20
      else .spin 0 100

/-- ASCII whitespace stripped by Python `float()` (`Py_ISSPACE`). -/
def isPyWhitespace (c : Char) : Bool :=
  c = ' ' || c = '\t' || c = '\n' || c = '\r' || c = '\x0b' || c = '\x0c'

/-- Longest leading run of decimal digits, with the rest. -/
def takeDigits : List Char → List Char × List Char
  | [] => ([], [])
  | c :: cs =>
      if c.isDigit then
        let (ds, rest) := takeDigits cs
        (c :: ds, rest)
      else ([], c :: cs)

/-- Value of a digit string read in base 10. -/
def digitsToNat (ds : List Char) : ℕ :=
  ds.foldl (fun a c => 10 * a + (c.toNat - '0'.toNat)) 0

/-- An exact decimal value `num / 10 ^ dpow`, the value of a finite
Python float literal kept in integer form (so that it evaluates inside
the kernel; `toRat` below gives its rational value). -/
structure Dec10 where
  num : ℤ
  dpow : ℕ
deriving DecidableEq

/-- The rational value a `Dec10` denotes. -/
def Dec10.toRat (x : Dec10) : ℚ := (x.num : ℚ) / (10 : ℚ) ^ x.dpow

/-- Truncation toward zero of a `Dec10`: Python `int()` on a finite
float (natural-number division truncates the absolute value). -/
def Dec10.trunc (x : Dec10) : ℤ :=
  if 0 ≤ x.num then ((x.num.toNat / 10 ^ x.dpow : ℕ) : ℤ)
  else -(((-x.num).toNat / 10 ^ x.dpow : ℕ) : ℤ)

/-- Whether a `Dec10` denotes a non-integer (its value has a non-zero
fractional part). -/
def Dec10.hasFraction (x : Dec10) : Prop := ¬ ((10 : ℤ) ^ x.dpow ∣ x.num)

instance (x : Dec10) : Decidable x.hasFraction := by
  unfold Dec10.hasFraction
  infer_instance

/-- Result of Python `float()` on a string: a finite value (exact), a
signed infinity, or nan. -/
inductive PyFloat where
  | finite (d : Dec10)
  | inf (neg : Bool)
  | nan
deriving DecidableEq

/-- An unsigned Python float literal `digits [. digits] [(e|E) [sign] digits]`
with at least one mantissa digit and nothing left over; its exact value. -/
def parseDecimal (cs : List Char) : Option Dec10 :=
  let (ip, r1) := takeDigits cs
  let (fp, r2) :=
    match r1 with
    | '.' :: rest => takeDigits rest
    | _ => ([], r1)
  if ip = [] ∧ fp = [] then none
  else
    let mant : ℕ := digitsToNat ip * 10 ^ fp.length + digitsToNat fp
    match r2 with
    | [] => some ⟨mant, fp.length⟩
    | e :: rest =>
        if e = 'e' ∨ e = 'E' then
          let (eneg, r3) :=
            match rest with
            | '+' :: t => (false, t)
            | '-' :: t => (true, t)
            | t => (false, t)
          let (ed, r4) := takeDigits r3
          if ed = [] ∨ r4 ≠ [] then none
          else if eneg then some ⟨mant, fp.length + digitsToNat ed⟩
          else some ⟨mant * 10 ^ digitsToNat ed, fp.length⟩
        else none

/-- Python `float(s)` on a string: strip whitespace, optional sign, then
either `inf`/`infinity`/`nan` (case-insensitive) or a decimal literal;
anything else raises `ValueError` (modelled as `none`). -/
def pyFloatOfString (s : String) : Option PyFloat :=
  let cs := ((s.data.dropWhile isPyWhitespace).reverse.dropWhile isPyWhitespace).reverse
  let (neg, body) :=
    match cs with
    | '+' :: t => (false, t)
    | '-' :: t => (true, t)
    | t => (false, t)
  let lower := body.map Char.toLower
  if lower = "inf".data ∨ lower = "infinity".data then some (.inf neg)
  else if lower = "nan".data then some .nan
  else
    match parseDecimal body with
    | some d => some (.finite (if neg then ⟨-d.num, d.dpow⟩ else d))
    | none => none

/-- `safe_cast_int` of `src/desktop/app.py` lines 184-188:
`int(float(x))` with every exception (`ValueError` on a non-numeric
string or nan, `OverflowError` on an infinity) returning `None`. -/
def safe_cast_int (s : String) : Option ℤ :=
  match pyFloatOfString s with
  | some (.finite d) => some d.trunc
  | some (.inf _) => none
  | some .nan => none
  | none => none

/-- One iteration of the `gather_and_map_inputs` loop (lines 192-208)
for a widget and the raw string in its `StringVar`: a dropdown maps its
display string through the choices map (`None`, which no choices map
contains as a value, means an invalid option); a spinbox parses via
`safe_cast_int`.  `.error`/`.ok` stand for the `errors[feat] = ...` and
`mapped[feat] = ...` branches. -/
def processField (w : Widget) (val : String) : Except String EncVal :=
  match w with
  | .dropdown opts =>
      match lookupA opts val with
      | none => .error "Choose a valid option"
      | some v => .ok v
  | .spin _ _ =>
      match safe_cast_int val with
      | none => .error "Enter a number"
      | some n => .ok (.i n)

/-- The whole per-feature step: the widget for `feat` applied to the raw
input for `feat`. -/
def fieldOutcome (raw : String → String) (feat : String) : Except String EncVal :=
  processField (widgetFor feat) (raw feat)

/-- The error message a field produces, when it produces one. -/
def errOf (r : Except String EncVal) : Option String :=
  match r with
  | .error m => some m
  | .ok _ => none

/-- The encoded value a field produces, when it validates. -/
def okOf (r : Except String EncVal) : Option EncVal :=
  match r with
  | .ok v => some v
  | .error _ => none

/-- The accumulation loop of `gather_and_map_inputs` (lines 191-208):
fold over the feature order, filling the `errors` and `mapped` dicts. -/
def gatherLoopAux (raw : String → String)
    (acc : List (String × String) × List (String × EncVal)) :
    List String → List (String × String) × List (String × EncVal)
  | [] => acc
  | f :: rest =>
      match processField (widgetFor f) (raw f) with
      | .error m => gatherLoopAux raw (pyInsert acc.1 f m, acc.2) rest
      | .ok v => gatherLoopAux raw (acc.1, pyInsert acc.2 f v) rest

/-- `gather_and_map_inputs` of `src/desktop/app.py` lines 190-213 over a
feature order and the widget raw values: `(False, errors)` when any
field errored, else `(True, [mapped[f] for f in FEATURE_ORDER])`.  The
`.getD (.i 0)` default is unreachable: on the success path every feature
of the order is a key of `mapped`, exactly as Python's `mapped[f]`
cannot raise there. -/
def gather_and_map_inputs (order : List String) (raw : String → String) :
    Except (List (String × String)) (List EncVal) :=
  if (gatherLoopAux raw ([], []) order).1 = [] then
    .ok (order.map (fun f => (lookupA (gatherLoopAux raw ([], []) order).2 f).getD (.i 0)))
  else .error (gatherLoopAux raw ([], []) order).1

/-- RawInputs as a key-ordered association list, read through lookup:
the widget state dict is accessed only by key, so this is the raw-value
function a given internal key order induces. -/
def rawOf (l : List (String × String)) (f : String) : String :=
  (lookupA l f).getD ""

-- scratch checks
example : safe_cast_int "12.0" = some 12 := by decide
example : safe_cast_int "17.9" = some 17 := by decide
example : safe_cast_int "-3.7" = some (-3) := by decide
example : safe_cast_int "abc" = none := by decide
example : safe_cast_int "" = none := by decide
example : safe_cast_int "inf" = none := by decide
example : safe_cast_int "nan" = none := by decide
example : safe_cast_int " 1e2 " = some 100 := by decide
example : widgetFor "age" = .spin 10 30 := by decide
example : widgetFor "school" = .dropdown [("GP", .s "GP"), ("MS", .s "MS")] := by decide
example : gather_and_map_inputs ["school"] (rawOf [("school", "GP")]) = .ok [.s "GP"] := by decide
example : gather_and_map_inputs ["school", "age"] (rawOf [("school", "ZZ"), ("age", "x")]) =
    .error [("school", "Choose a valid option"), ("age", "Enter a number")] := by decide

/-- Left-pad with zeros to the given width. -/
def padZeros (s : String) (w : ℕ) : String :=
  String.mk (List.replicate (w - s.length) '0') ++ s

/-- Fixed-point formatting of a rational, Python `f"{p:.prec f}"`
(Python rounds the underlying double half-to-even; the tie-breaking
rule is irrelevant to every claim here and idealised to `round`). -/
def formatFixed (prec : ℕ) (q : ℚ) : String :=
  let scaled : ℤ := round (q * (10 : ℚ) ^ prec)
  let sign := if scaled < 0 then "-" else ""
  let a := scaled.natAbs
  sign ++ toString (a / 10 ^ prec) ++ "." ++ padZeros (toString (a % 10 ^ prec)) prec

/-- The prediction step of `predict_action`, `src/desktop/app.py` lines
227-242, with the model collaborator's two calls as parameters: the
`predict_proba` call has its own bare `except` that turns any failure
into `prob = None`; a `predict` failure reaches the outer handler and
fails the whole prediction.  On success the result is the class text
set into `pred_var` and the probability text set into `prob_var`
(`"N/A"` when `prob is None`). -/
def predict_action_result (proba : Except Unit ℚ) (pred : Except Unit ℤ) :
    Except Unit (String × String) :=
  match pred with
  | .error e => .error e
  | .ok p =>
      .ok (if p = 1 then "1 (High stress)" else "0 (Low stress)",
           match proba with
           | .ok pr => formatFixed 4 pr
           | .error _ => "N/A")

/-- The prediction step of `src/streamlit/app.py` lines 175-187: same
structure, `predict_proba` failure degrades to `prob = None` shown as
`"N/A"`, `predict` failure reaches the outer handler. -/
def streamlit_predict_result (proba : Except Unit ℚ) (pred : Except Unit ℤ) :
    Except Unit (String × String) :=
  match pred with
  | .error e => .error e
  | .ok p =>
      .ok (if p = 1 then "High stress (1)" else "Low stress (0)",
           match proba with
           | .ok pr => formatFixed 3 pr
           | .error _ => "N/A")


theorem lookupA_replace_ne {α : Type} (d : List (String × α)) (k k' : String) (v : α)
    (h : k' ≠ k) :
    lookupA (d.map (fun p => if p.1 = k then (k, v) else p)) k' = lookupA d k' := by
  induction d with
  | nil => rfl
  | cons a t ih =>
      obtain ⟨a1, a2⟩ := a
      rw [List.map_cons]
      by_cases hak : a1 = k
      · have hd : (if ((a1, a2) : String × α).1 = k then (k, v) else (a1, a2)) = (k, v) := by
          simp [hak]
        rw [hd]
        simp only [lookupA]
        rw [if_neg (fun hh => h hh.symm), if_neg (fun hh => h (hak ▸ hh).symm), ih]
      · have hd : (if ((a1, a2) : String × α).1 = k then (k, v) else (a1, a2)) = (a1, a2) := by
          simp [hak]
        rw [hd]
        simp only [lookupA]
        by_cases hk : a1 = k'
        · rw [if_pos hk, if_pos hk]
        · rw [if_neg hk, if_neg hk, ih]

theorem lookupA_replace_eq {α : Type} (d : List (String × α)) (k : String) (v : α)
    (h : d.any (fun p => p.1 = k) = true) :
    lookupA (d.map (fun p => if p.1 = k then (k, v) else p)) k = some v := by
  induction d with
  | nil => simp at h
  | cons a t ih =>
      obtain ⟨a1, a2⟩ := a
      rw [List.map_cons]
      by_cases hak : a1 = k
      · have hd : (if ((a1, a2) : String × α).1 = k then (k, v) else (a1, a2)) = (k, v) := by
          simp [hak]
        rw [hd]
        simp [lookupA]
      · have h2 : t.any (fun p => p.1 = k) = true := by simpa [hak] using h
        have hd : (if ((a1, a2) : String × α).1 = k then (k, v) else (a1, a2)) = (a1, a2) := by
          simp [hak]
        rw [hd]
        simp only [lookupA]
        rw [if_neg hak, ih h2]

theorem lookupA_append {α : Type} (d e : List (String × α)) (k : String) :
    lookupA (d ++ e) k = ((lookupA d k).orElse (fun _ => lookupA e k)) := by
  induction d with
  | nil => simp [lookupA, Option.orElse]
  | cons a t ih =>
      obtain ⟨a1, a2⟩ := a
      by_cases hk : a1 = k
      · simp [lookupA, hk, Option.orElse]
      · simp only [List.cons_append, lookupA, if_neg hk, Option.orElse]
        simpa [Option.orElse] using ih

theorem lookupA_eq_none_of_no_key {α : Type} (d : List (String × α)) (k : String)
    (h : ∀ p ∈ d, ¬ p.1 = k) : lookupA d k = none := by
  induction d with
  | nil => rfl
  | cons a t ih =>
      obtain ⟨a1, a2⟩ := a
      rw [lookupA, if_neg (h (a1, a2) (by simp))]
      exact ih (fun p hp => h p (by simp [hp]))

theorem lookupA_pyInsert {α : Type} (d : List (String × α)) (k k' : String) (v : α) :
    lookupA (pyInsert d k v) k' = if k' = k then some v else lookupA d k' := by
  unfold pyInsert
  by_cases hany : d.any (fun p => p.1 = k) = true
  · rw [if_pos hany]
    by_cases hk : k' = k
    · subst hk
      rw [if_pos rfl, lookupA_replace_eq d k' v hany]
    · rw [if_neg hk, lookupA_replace_ne d k k' v hk]
  · rw [if_neg hany, lookupA_append]
    have hno : ∀ p ∈ d, ¬ p.1 = k := by
      intro p hp
      by_contra hc
      exact hany (List.any_eq_true.mpr ⟨p, hp, by simpa using hc⟩)
    by_cases hk : k' = k
    · subst hk
      rw [lookupA_eq_none_of_no_key d k' hno]
      simp [lookupA, Option.orElse]
    · cases hdk : lookupA d k' with
      | none =>
          rw [if_neg hk]
          simp only [Option.orElse, lookupA]
          rw [if_neg (fun hh => hk hh.symm)]
      | some w =>
          rw [if_neg hk]
          simp [Option.orElse]

theorem pyInsert_ne_nil {α : Type} (d : List (String × α)) (k : String) (v : α) :
    pyInsert d k v ≠ [] := by
  unfold pyInsert
  split
  · intro h
    rename_i hany
    rw [List.map_eq_nil_iff] at h
    subst h
    simp at hany
  · simp

theorem gatherLoopAux_cons (raw : String → String)
    (acc : List (String × String) × List (String × EncVal)) (f : String)
    (rest : List String) :
    gatherLoopAux raw acc (f :: rest) =
      match processField (widgetFor f) (raw f) with
      | .error m => gatherLoopAux raw (pyInsert acc.1 f m, acc.2) rest
      | .ok v => gatherLoopAux raw (acc.1, pyInsert acc.2 f v) rest := rfl

theorem gatherLoopAux_fst_lookup (raw : String → String) (order : List String)
    (acc : List (String × String) × List (String × EncVal)) (k : String) :
    lookupA (gatherLoopAux raw acc order).1 k =
      match errOf (fieldOutcome raw k) with
      | some m => if k ∈ order then some m else lookupA acc.1 k
      | none => lookupA acc.1 k := by
  induction order generalizing acc with
  | nil =>
      simp only [gatherLoopAux, List.not_mem_nil, if_false]
      cases errOf (fieldOutcome raw k) <;> rfl
  | cons f rest ih =>
      rw [gatherLoopAux_cons]
      cases hf : processField (widgetFor f) (raw f) with
      | error m =>
          rw [ih]
          by_cases hkf : k = f
          · subst hkf
            have he : errOf (fieldOutcome raw k) = some m := by
              simp [fieldOutcome, hf, errOf]
            simp [he, lookupA_pyInsert, List.mem_cons]
          · have hl : lookupA (pyInsert acc.1 f m) k = lookupA acc.1 k := by
              rw [lookupA_pyInsert, if_neg hkf]
            cases he : errOf (fieldOutcome raw k) with
            | none => exact hl
            | some m2 => simp [hl, List.mem_cons, hkf]
      | ok v =>
          rw [ih]
          by_cases hkf : k = f
          · subst hkf
            have he : errOf (fieldOutcome raw k) = none := by
              simp [fieldOutcome, hf, errOf]
            simp [he]
          · cases he : errOf (fieldOutcome raw k) with
            | none => rfl
            | some m2 => simp [List.mem_cons, hkf]

theorem gatherLoopAux_snd_lookup (raw : String → String) (order : List String)
    (acc : List (String × String) × List (String × EncVal)) (k : String) :
    lookupA (gatherLoopAux raw acc order).2 k =
      match okOf (fieldOutcome raw k) with
      | some v => if k ∈ order then some v else lookupA acc.2 k
      | none => lookupA acc.2 k := by
  induction order generalizing acc with
  | nil =>
      simp only [gatherLoopAux, List.not_mem_nil, if_false]
      cases okOf (fieldOutcome raw k) <;> rfl
  | cons f rest ih =>
      rw [gatherLoopAux_cons]
      cases hf : processField (widgetFor f) (raw f) with
      | ok v =>
          rw [ih]
          by_cases hkf : k = f
          · subst hkf
            have he : okOf (fieldOutcome raw k) = some v := by
              simp [fieldOutcome, hf, okOf]
            simp [he, lookupA_pyInsert, List.mem_cons]
          · have hl : lookupA (pyInsert acc.2 f v) k = lookupA acc.2 k := by
              rw [lookupA_pyInsert, if_neg hkf]
            cases he : okOf (fieldOutcome raw k) with
            | none => exact hl
            | some v2 => simp [hl, List.mem_cons, hkf]
      | error m =>
          rw [ih]
          by_cases hkf : k = f
          · subst hkf
            have he : okOf (fieldOutcome raw k) = none := by
              simp [fieldOutcome, hf, okOf]
            simp [he]
          · cases he : okOf (fieldOutcome raw k) with
            | none => rfl
            | some v2 => simp [List.mem_cons, hkf]

theorem gatherLoopAux_fst_eq_nil_iff (raw : String → String) (order : List String)
    (acc : List (String × String) × List (String × EncVal)) :
    (gatherLoopAux raw acc order).1 = [] ↔
      acc.1 = [] ∧ ∀ f ∈ order, errOf (fieldOutcome raw f) = none := by
  induction order generalizing acc with
  | nil => simp [gatherLoopAux]
  | cons f rest ih =>
      rw [gatherLoopAux_cons]
      cases hf : processField (widgetFor f) (raw f) with
      | error m =>
          have he : errOf (fieldOutcome raw f) = some m := by
            simp [fieldOutcome, hf, errOf]
          rw [ih]
          constructor
          · rintro ⟨h1, -⟩
            exact absurd h1 (pyInsert_ne_nil acc.1 f m)
          · rintro ⟨-, h2⟩
            have := h2 f (by simp)
            rw [he] at this
            cases this
      | ok v =>
          have he : errOf (fieldOutcome raw f) = none := by
            simp [fieldOutcome, hf, errOf]
          rw [ih]
          simp [List.forall_mem_cons, he]

theorem gatherLoopAux_congr (raw1 raw2 : String → String) (order : List String)
    (acc : List (String × String) × List (String × EncVal))
    (h : ∀ f ∈ order, raw1 f = raw2 f) :
    gatherLoopAux raw1 acc order = gatherLoopAux raw2 acc order := by
  induction order generalizing acc with
  | nil => rfl
  | cons f rest ih =>
      rw [gatherLoopAux_cons, gatherLoopAux_cons, h f (by simp)]
      cases processField (widgetFor f) (raw2 f) with
      | error m => exact ih _ (fun g hg => h g (by simp [hg]))
      | ok v => exact ih _ (fun g hg => h g (by simp [hg]))

theorem gather_ok_of_all_valid (order : List String) (raw : String → String)
    (h : ∀ f ∈ order, errOf (fieldOutcome raw f) = none) :
    gather_and_map_inputs order raw =
      .ok (order.map (fun f => (okOf (fieldOutcome raw f)).getD (.i 0))) := by
  have h0 : (gatherLoopAux raw ([], []) order).1 = [] :=
    (gatherLoopAux_fst_eq_nil_iff raw order ([], [])).mpr ⟨rfl, h⟩
  unfold gather_and_map_inputs
  rw [if_pos h0]
  congr 1
  apply List.map_congr_left
  intro f hf
  rw [gatherLoopAux_snd_lookup]
  cases ho : okOf (fieldOutcome raw f) with
  | some v => simp [hf]
  | none =>
      exfalso
      have hthis := h f hf
      cases hcase : fieldOutcome raw f with
      | error m =>
          rw [hcase] at hthis
          simp [errOf] at hthis
      | ok v =>
          rw [hcase] at ho
          simp [okOf] at ho

theorem gather_error_of_invalid (order : List String) (raw : String → String)
    (h : ¬ ∀ f ∈ order, errOf (fieldOutcome raw f) = none) :
    gather_and_map_inputs order raw = .error (gatherLoopAux raw ([], []) order).1 := by
  have h0 : ¬ (gatherLoopAux raw ([], []) order).1 = [] := by
    rw [gatherLoopAux_fst_eq_nil_iff]
    rintro ⟨-, h2⟩
    exact h h2
  unfold gather_and_map_inputs
  rw [if_neg h0]

theorem gather_errors_lookup (order : List String) (raw : String → String)
    (e : List (String × String)) (he : gather_and_map_inputs order raw = .error e)
    (k : String) :
    lookupA e k = if k ∈ order then errOf (fieldOutcome raw k) else none := by
  have hne : ¬ ∀ f ∈ order, errOf (fieldOutcome raw f) = none := by
    intro hall
    rw [gather_ok_of_all_valid order raw hall] at he
    cases he
  rw [gather_error_of_invalid order raw hne] at he
  have hee : e = (gatherLoopAux raw ([], []) order).1 := by
    cases he
    rfl
  subst hee
  rw [gatherLoopAux_fst_lookup]
  cases herr : errOf (fieldOutcome raw k) with
  | some m =>
      by_cases hk : k ∈ order
      · simp [hk]
      · simp [hk, lookupA]
  | none =>
      by_cases hk : k ∈ order <;> simp [hk, lookupA]

theorem gather_congr (order : List String) (raw1 raw2 : String → String)
    (h : ∀ f ∈ order, raw1 f = raw2 f) :
    gather_and_map_inputs order raw1 = gather_and_map_inputs order raw2 := by
  unfold gather_and_map_inputs
  rw [gatherLoopAux_congr raw1 raw2 order ([], []) h]

theorem lookupA_perm {α : Type} {l1 l2 : List (String × α)} (hp : l1.Perm l2) :
    (l1.map Prod.fst).Nodup → ∀ k, lookupA l1 k = lookupA l2 k := by
  induction hp with
  | nil => intro _ k; rfl
  | cons a h ih =>
      intro hnd k
      obtain ⟨a1, a2⟩ := a
      simp only [lookupA]
      by_cases hk : a1 = k
      · rw [if_pos hk, if_pos hk]
      · rw [if_neg hk, if_neg hk]
        exact ih (by simpa using (List.nodup_cons.mp (by simpa using hnd)).2) k
  | swap x y l =>
      intro hnd k
      obtain ⟨x1, x2⟩ := x
      obtain ⟨y1, y2⟩ := y
      have hxy : y1 ≠ x1 := by
        simp only [List.map_cons, List.nodup_cons, List.mem_cons, not_or] at hnd
        exact hnd.1.1
      simp only [lookupA]
      by_cases hyk : y1 = k
      · rw [if_pos hyk, if_neg (fun hh => hxy (hyk.trans hh.symm)), if_pos hyk]
      · by_cases hxk : x1 = k
        · rw [if_neg hyk, if_pos hxk, if_pos hxk]
        · rw [if_neg hyk, if_neg hxk, if_neg hxk, if_neg hyk]
  | trans h1 h2 ih1 ih2 =>
      intro hnd k
      exact (ih1 hnd k).trans (ih2 (((h1.map Prod.fst).nodup_iff).mp hnd) k)

/-- Claim C1: for every RawInputs association list whose fields all
validate, `gather_and_map_inputs` produces an EncodedVector with exactly
`len(schema)` entries whose i-th entry is the encoded value of the i-th
feature of the active order, and the vector is independent of the
internal key order of RawInputs (any permutation of the entries gives
the same vector). -/
theorem gather_success_complete (order : List String)
    (l1 l2 : List (String × String))
    (hnd : (l1.map Prod.fst).Nodup) (hperm : l1.Perm l2)
    (hok : ∀ f ∈ order, errOf (fieldOutcome (rawOf l1) f) = none) :
    ∃ vec, gather_and_map_inputs order (rawOf l1) = .ok vec ∧
      gather_and_map_inputs order (rawOf l2) = .ok vec ∧
      vec.length = order.length ∧
      ∀ i : ℕ, ∀ f : String, order[i]? = some f →
        vec[i]? = okOf (fieldOutcome (rawOf l1) f) := by
  refine ⟨order.map (fun f => (okOf (fieldOutcome (rawOf l1) f)).getD (.i 0)),
    gather_ok_of_all_valid order (rawOf l1) hok, ?_, by simp, ?_⟩
  · rw [← gather_congr order (rawOf l1) (rawOf l2)
      (fun f _ => by unfold rawOf; rw [lookupA_perm hperm hnd f])]
    exact gather_ok_of_all_valid order (rawOf l1) hok
  · intro i f hif
    have hfm : f ∈ order := List.getElem?_mem hif
    have hval : errOf (fieldOutcome (rawOf l1) f) = none := hok f hfm
    obtain ⟨v, hv⟩ : ∃ v, okOf (fieldOutcome (rawOf l1) f) = some v := by
      cases hcase : fieldOutcome (rawOf l1) f with
      | error m =>
          rw [hcase] at hval
          simp [errOf] at hval
      | ok v => exact ⟨v, rfl⟩
    rw [List.getElem?_map, hif, Option.map_some', hv]
    rfl

/-- Claim C1 witness: a two-field order, all fields valid, with the raw
inputs given in two different key orders. -/
theorem gather_success_complete_witness :
    ∃ vec, gather_and_map_inputs ["school", "sex"]
        (rawOf [("school", "GP"), ("sex", "F")]) = .ok vec ∧
      gather_and_map_inputs ["school", "sex"]
        (rawOf [("sex", "F"), ("school", "GP")]) = .ok vec ∧
      vec.length = (["school", "sex"] : List String).length ∧
      ∀ i : ℕ, ∀ f : String, (["school", "sex"] : List String)[i]? = some f →
        vec[i]? = okOf (fieldOutcome (rawOf [("school", "GP"), ("sex", "F")]) f) :=
  gather_success_complete ["school", "sex"]
    [("school", "GP"), ("sex", "F")] [("sex", "F"), ("school", "GP")]
    (by decide) (by decide) (by decide)

/-- Claim C2: the loop checks every feature of the order; encoding fails
exactly when some field fails, the errors dict then holds exactly the
failing fields (keyed by feature, with that field's message), is
non-empty, and no encoded vector is produced. -/
theorem gather_error_accumulation (order : List String) (raw : String → String) :
    ((∃ e, gather_and_map_inputs order raw = .error e) ↔
      ∃ f ∈ order, errOf (fieldOutcome raw f) ≠ none) ∧
    (∀ e, gather_and_map_inputs order raw = .error e →
      e ≠ [] ∧
      ∀ f, lookupA e f = if f ∈ order then errOf (fieldOutcome raw f) else none) ∧
    (∀ e, gather_and_map_inputs order raw = .error e →
      ∀ vec, gather_and_map_inputs order raw ≠ .ok vec) := by
  refine ⟨⟨?_, ?_⟩, ?_, ?_⟩
  · rintro ⟨e, he⟩
    by_contra hno
    push_neg at hno
    rw [gather_ok_of_all_valid order raw hno] at he
    cases he
  · rintro ⟨f, hf, herr⟩
    have hne : ¬ ∀ g ∈ order, errOf (fieldOutcome raw g) = none := fun hall => herr (hall f hf)
    exact ⟨_, gather_error_of_invalid order raw hne⟩
  · intro e he
    refine ⟨?_, gather_errors_lookup order raw e he⟩
    intro hnil
    subst hnil
    unfold gather_and_map_inputs at he
    by_cases h0 : (gatherLoopAux raw ([], []) order).1 = []
    · rw [if_pos h0] at he
      cases he
    · rw [if_neg h0] at he
      injection he with hh
      exact h0 hh
  · intro e he vec hvec
    rw [he] at hvec
    cases hvec

/-- Claim C3: for a Categorical feature, every key of its choices map
validates and encodes to its mapped value exactly (string or integer,
as in the catalog); a display string that is not a key produces the
error "Choose a valid option" for that feature, and when every other
field is valid the errors dict holds that feature and no other. -/
theorem categorical_encoding (feat : String) (opts : List (String × EncVal))
    (hw : widgetFor feat = .dropdown opts) :
    (∀ s v, lookupA opts s = some v → processField (widgetFor feat) s = .ok v) ∧
    (∀ s, lookupA opts s = none →
      processField (widgetFor feat) s = .error "Choose a valid option") ∧
    (∀ order raw, feat ∈ order → lookupA opts (raw feat) = none →
      (∀ g ∈ order, g ≠ feat → errOf (fieldOutcome raw g) = none) →
      ∃ e, gather_and_map_inputs order raw = .error e ∧
        ∀ g, lookupA e g = if g = feat then some "Choose a valid option" else none) := by
  refine ⟨?_, ?_, ?_⟩
  · intro s v hs
    rw [hw]
    simp [processField, hs]
  · intro s hs
    rw [hw]
    simp [processField, hs]
  · intro order raw hmem hbad hrest
    have hfe : errOf (fieldOutcome raw feat) = some "Choose a valid option" := by
      unfold fieldOutcome
      rw [hw]
      simp [processField, hbad, errOf]
    have hne : ¬ ∀ g ∈ order, errOf (fieldOutcome raw g) = none := by
      intro hall
      have := hall feat hmem
      rw [hfe] at this
      cases this
    refine ⟨_, gather_error_of_invalid order raw hne, ?_⟩
    intro g
    have hl := gather_errors_lookup order raw _ (gather_error_of_invalid order raw hne) g
    rw [hl]
    by_cases hg : g = feat
    · subst hg
      rw [if_pos hmem, hfe, if_pos rfl]
    · rw [if_neg hg]
      by_cases hgo : g ∈ order
      · rw [if_pos hgo, hrest g hgo hg]
      · rw [if_neg hgo]

/-- Claim C3 witness: the `school` dropdown at the valid key "GP" and
at the invalid string "XX". -/
theorem categorical_encoding_witness :
    (∀ s v, lookupA [("GP", EncVal.s "GP"), ("MS", EncVal.s "MS")] s = some v →
      processField (widgetFor "school") s = .ok v) ∧
    (∀ s, lookupA [("GP", EncVal.s "GP"), ("MS", EncVal.s "MS")] s = none →
      processField (widgetFor "school") s = .error "Choose a valid option") ∧
    (∀ order raw, "school" ∈ order →
      lookupA [("GP", EncVal.s "GP"), ("MS", EncVal.s "MS")] (raw "school") = none →
      (∀ g ∈ order, g ≠ "school" → errOf (fieldOutcome raw g) = none) →
      ∃ e, gather_and_map_inputs order raw = .error e ∧
        ∀ g, lookupA e g = if g = "school" then some "Choose a valid option" else none) :=
  categorical_encoding "school" [("GP", EncVal.s "GP"), ("MS", EncVal.s "MS")] (by decide)

/-- Claim C4: any raw string parseable as an integer by the
float-then-truncate cast (including decimal-looking strings such as
"12.0") encodes to that integer for a Numeric field, and any string not
so parseable (such as "abc" or "") produces "Enter a number". -/
theorem numeric_encoding (lo hi : ℤ) (s : String) :
    (∀ n : ℤ, safe_cast_int s = some n →
      processField (.spin lo hi) s = .ok (.i n)) ∧
    (safe_cast_int s = none →
      processField (.spin lo hi) s = .error "Enter a number") ∧
    safe_cast_int "12.0" = some 12 ∧
    safe_cast_int "abc" = none ∧
    safe_cast_int "" = none := by
  refine ⟨?_, ?_, by decide, by decide, by decide⟩
  · intro n hn
    unfold processField
    rw [hn]
  · intro hn
    unfold processField
    rw [hn]

/-- Claim C5 counterexample: in the streamlit app (one of the claim's
two cited code sites) schema construction does not fall back silently: a
missing sidecar file raises and is surfaced to the user as a fatal
startup error, and a sidecar missing "G2" is kept verbatim (with a
warning flag) instead of being replaced by `REQUIRED_FEATURES`. -/
theorem schema_load_error_surfaced :
    streamlitStartup .missing = .error "feature_names.json not found" ∧
    streamlitStartup (.parsed (REQUIRED_FEATURES.erase "G2")) =
      .ok (REQUIRED_FEATURES.erase "G2", true) ∧
    REQUIRED_FEATURES.erase "G2" ≠ REQUIRED_FEATURES := by
  refine ⟨rfl, by decide, by decide⟩

/-- Claim C5 (amended): in the desktop app, schema construction never
raises and any degraded sidecar read (missing file, parse failure, or a
parsed list omitting a required feature) makes the active order fall
back to `REQUIRED_FEATURES` verbatim. -/
theorem FEATURE_ORDER_fallback (f : SidecarFile)
    (h : f = .missing ∨ f = .unparseable ∨
      ∃ l, f = .parsed l ∧ ¬ ∀ r ∈ REQUIRED_FEATURES, r ∈ l) :
    FEATURE_ORDER f = REQUIRED_FEATURES := by
  rcases h with h | h | ⟨l, rfl, hl⟩
  · subst h; rfl
  · subst h; rfl
  · have hdef : FEATURE_ORDER (.parsed l) =
        if REQUIRED_FEATURES.all (fun f => l.contains f) then l
        else REQUIRED_FEATURES := rfl
    rw [hdef, if_neg]
    intro hc
    apply hl
    intro r hr
    have := List.all_eq_true.mp hc r hr
    simpa using this

/-- Claim C5 witness: a sidecar list missing "G2" falls back in the
desktop app. -/
theorem FEATURE_ORDER_fallback_witness :
    FEATURE_ORDER (.parsed (REQUIRED_FEATURES.erase "G2")) = REQUIRED_FEATURES :=
  FEATURE_ORDER_fallback (.parsed (REQUIRED_FEATURES.erase "G2"))
    (Or.inr (Or.inr ⟨REQUIRED_FEATURES.erase "G2", rfl, by decide⟩))

/-- Claim C6: numeric validation performs no range check: a value
castable to an integer is accepted and encoded even when it lies outside
the widget's declared [lo, hi] bounds, and no validation error is
recorded for that feature. -/
theorem numeric_no_range_check (feat : String) (lo hi : ℤ) (s : String) (n : ℤ)
    (hw : widgetFor feat = .spin lo hi) (hcast : safe_cast_int s = some n)
    (hout : n < lo ∨ hi < n) :
    processField (widgetFor feat) s = .ok (.i n) ∧
    ∀ order raw, raw feat = s →
      ∀ e, gather_and_map_inputs order raw = .error e → lookupA e feat = none := by
  have hpf : processField (widgetFor feat) s = .ok (.i n) := by
    rw [hw]
    simp [processField, hcast]
  refine ⟨hpf, ?_⟩
  intro order raw hraw e he
  have hfo : errOf (fieldOutcome raw feat) = none := by
    unfold fieldOutcome
    rw [hraw, hpf]
    rfl
  rw [gather_errors_lookup order raw e he feat]
  by_cases hm : feat ∈ order
  · rw [if_pos hm, hfo]
  · rw [if_neg hm]

/-- Claim C6 witness: age 150 (spin bounds 10-30) is accepted. -/
theorem numeric_no_range_check_witness :
    processField (widgetFor "age") "150" = .ok (.i 150) ∧
    ∀ order raw, raw "age" = "150" →
      ∀ e, gather_and_map_inputs order raw = .error e → lookupA e "age" = none :=
  numeric_no_range_check "age" 10 30 "150" 150 (by decide) (by decide)
    (Or.inr (by decide))

/-- Claim C7: when the model's predict_proba call fails (is unavailable
or raises), both apps substitute "N/A" for the probability display and
still report the class label obtained from predict, instead of failing
the whole prediction. -/
theorem predict_proba_failure_degrades (pred : ℤ) :
    predict_action_result (.error ()) (.ok pred) =
      .ok (if pred = 1 then "1 (High stress)" else "0 (Low stress)", "N/A") ∧
    streamlit_predict_result (.error ()) (.ok pred) =
      .ok (if pred = 1 then "High stress (1)" else "Low stress (0)", "N/A") :=
  ⟨rfl, rfl⟩

/-- Claim C8: the encoding step is a pure function of (RawInputs,
Schema): its result depends on nothing but the raw value of each
feature of the order, so encoding the same RawInputs twice (or through
any state that agrees on those features) yields identical results. -/
theorem gather_pure_function (order : List String) (raw1 raw2 : String → String)
    (h : ∀ f ∈ order, raw1 f = raw2 f) :
    gather_and_map_inputs order raw1 = gather_and_map_inputs order raw2 :=
  gather_congr order raw1 raw2 h

/-- Claim C8 witness: two widget states agreeing on the order's features
(one has an extra unrelated key) encode identically. -/
theorem gather_pure_function_witness :
    gather_and_map_inputs ["school"] (rawOf [("school", "GP")]) =
      gather_and_map_inputs ["school"] (rawOf [("school", "GP"), ("other", "zzz")]) :=
  gather_pure_function ["school"] (rawOf [("school", "GP")])
    (rawOf [("school", "GP"), ("other", "zzz")]) (by decide)

/-- Claim C9: `safe_cast_int` is total (always an integer or `None`,
never an exception), and inputs whose float parse succeeds but whose
integer conversion raises in Python — "inf", "-inf", "Infinity", "nan",
"-nan" — yield `None` and hence the "Enter a number" error. -/
theorem safe_cast_int_total :
    (∀ s : String, safe_cast_int s = none ∨ ∃ n, safe_cast_int s = some n) ∧
    safe_cast_int "inf" = none ∧
    safe_cast_int "-inf" = none ∧
    safe_cast_int "Infinity" = none ∧
    safe_cast_int "nan" = none ∧
    safe_cast_int "-nan" = none ∧
    processField (.spin 0 100) "inf" = .error "Enter a number" := by
  refine ⟨fun s => ?_, by decide, by decide, by decide, by decide, by decide, by decide⟩
  cases safe_cast_int s with
  | none => exact Or.inl rfl
  | some n => exact Or.inr ⟨n, rfl⟩

/-- Claim C10: a raw string parsing to a finite float with a non-zero
fractional part is not rejected: it validates and encodes to the
truncation toward zero of its value (a silently changed value), e.g.
"17.9" to 17 and "-3.7" to -3. -/
theorem numeric_fractional_truncated (lo hi : ℤ) (s : String) (d : Dec10)
    (hp : pyFloatOfString s = some (.finite d)) (hfrac : d.hasFraction) :
    safe_cast_int s = some d.trunc ∧
    processField (.spin lo hi) s = .ok (.i d.trunc) ∧
    (d.trunc : ℚ) ≠ d.toRat ∧
    safe_cast_int "17.9" = some 17 ∧
    safe_cast_int "-3.7" = some (-3) := by
  have h1 : safe_cast_int s = some d.trunc := by
    unfold safe_cast_int
    rw [hp]
  refine ⟨h1, by simp [processField, h1], ?_, by decide, by decide⟩
  intro heq
  apply hfrac
  unfold Dec10.toRat at heq
  have hne : ((10 : ℚ) ^ d.dpow) ≠ 0 := by positivity
  rw [eq_div_iff hne] at heq
  have h4 : d.trunc * (10 : ℤ) ^ d.dpow = d.num := by exact_mod_cast heq
  exact ⟨d.trunc, by rw [← h4]; ring⟩

/-- Claim C10 witness: "17.9" parses to the exact decimal 179/10, which
has a fractional part, and encodes to 17. -/
theorem numeric_fractional_truncated_witness :
    safe_cast_int "17.9" = some (Dec10.mk 179 1).trunc ∧
    processField (.spin 0 20) "17.9" = .ok (.i (Dec10.mk 179 1).trunc) ∧
    ((Dec10.mk 179 1).trunc : ℚ) ≠ (Dec10.mk 179 1).toRat ∧
    safe_cast_int "17.9" = some 17 ∧
    safe_cast_int "-3.7" = some (-3) :=
  numeric_fractional_truncated 0 20 "17.9" (Dec10.mk 179 1) (by decide) (by decide)
